import Mathlib

/-!
Shallow embedding of `src/error.rs`: a nom-style verbose error accumulator
(`VerboseError`), the `context` annotating combinator, and the hexdump trace
renderer `convert_error`.  Machine bytes are `Fin 256`; Rust slices of the
input buffer are `List Byte`; a borrowed sub-slice position is an
offset/length pair into the original buffer.  Rust panics (out-of-bounds
slicing) are modelled by `Option`.
-/

namespace Ittech

/-- Bytes of the input buffer (Rust `u8`). -/
abbrev Byte := Fin 256

/-- Lowercase hex digit characters as produced by Rust `{:x}` formatting. -/
def hexDigitChar (n : Nat) : Char :=
  if n < 10 then Char.ofNat (48 + n) else Char.ofNat (87 + n)

/-- Fuelled big-endian hex expansion of a natural number; `fuel = n + 1`
always suffices because the argument shrinks by a factor of 16 each step. -/
def hexDigitsAux : Nat → Nat → List Char → List Char
  | 0, _, acc => acc
  | fuel + 1, n, acc =>
    if n < 16 then hexDigitChar n :: acc
    else hexDigitsAux fuel (n / 16) (hexDigitChar (n % 16) :: acc)

/-- The lowercase hex digits of `n`, most significant first (Rust `{:x}`). -/
def hexDigitsOf (n : Nat) : List Char := hexDigitsAux (n + 1) n []

/-- Pad a character list on the left with `c` up to width `w`
(Rust's zero-padding width specifier). -/
def padLeftList (w : Nat) (c : Char) (l : List Char) : List Char :=
  List.replicate (w - l.length) c ++ l

/-- Rust `{:08x}`: hex digits zero-padded on the left to width 8. -/
def hex8Str (n : Nat) : String := String.mk (padLeftList 8 '0' (hexDigitsOf n))

/-- Rust `{:02x}` on a byte: hex digits zero-padded on the left to width 2. -/
def hex02 (b : Byte) : String := String.mk (padLeftList 2 '0' (hexDigitsOf b.val))

/-- Rust `{:x}` without padding (the digits of `{:#x}` after the `0x` prefix). -/
def hexNatStr (n : Nat) : String := String.mk (hexDigitsOf n)

/-- The error kinds emitted by the external nom primitives
(`nom::error::ErrorKind`), modelled by a representative subset of variants.
Its derived `Debug` text is the bare variant name. -/
inductive ErrorKind where
  | Tag
  | MapRes
  | Alt
  | Count
  | Eof
  | Switch
  | TakeWhile1
  | Many1
  | Verify
  deriving DecidableEq

/-- The `{:?}` (derived `Debug`) rendering of an `ErrorKind`. -/
def ErrorKind.debugStr : ErrorKind → String
  | .Tag => "Tag"
  | .MapRes => "MapRes"
  | .Alt => "Alt"
  | .Count => "Count"
  | .Eof => "Eof"
  | .Switch => "Switch"
  | .TakeWhile1 => "TakeWhile1"
  | .Many1 => "Many1"
  | .Verify => "Verify"

/-- Error context for `VerboseError` (`VerboseErrorKind` in the source):
either a string added by the `context` function or an error kind given by a
nom parser. -/
inductive VerboseErrorKind where
  | Context (s : String)
  | Nom (k : ErrorKind)
  deriving DecidableEq

/-- A borrowed sub-slice of the original input buffer (Rust `&[u8]` derived
from the buffer): start offset plus length.  The sub-slice invariant
`start + len ≤ buffer length` is carried as a hypothesis where needed. -/
structure Position where
  start : Nat
  len : Nat
  deriving DecidableEq

/-- `VerboseError<I>`: the list of errors accumulated while backtracking,
each an affected input position together with some context. -/
structure VerboseError (I : Type) where
  errors : List (I × VerboseErrorKind)
  deriving DecidableEq

/-- `ParseError::from_error_kind` for `VerboseError`: seed a one-entry trace. -/
def VerboseError.from_error_kind (input : I) (kind : ErrorKind) : VerboseError I :=
  ⟨[(input, .Nom kind)]⟩

/-- `ParseError::append` for `VerboseError`: push a nom error kind entry at
the end of the accumulated list. -/
def VerboseError.append (input : I) (kind : ErrorKind) (other : VerboseError I) :
    VerboseError I :=
  ⟨other.errors ++ [(input, .Nom kind)]⟩

/-- `ContextError::add_context` for `VerboseError`: push a context string
entry at the end of the accumulated list. -/
def VerboseError.add_context (input : I) (ctx : String) (other : VerboseError I) :
    VerboseError I :=
  ⟨other.errors ++ [(input, .Context ctx)]⟩

/-- `ContextError::new` for `VerboseError`: seed a one-entry context trace. -/
def VerboseError.new (input : I) (ctx : String) : VerboseError I :=
  ⟨[(input, .Context ctx)]⟩

/-- `nom::Needed`: how much more data an incomplete parse wants. -/
inductive Needed where
  | Unknown
  | Size (n : Nat)
  deriving DecidableEq

/-- `nom::Err`: the three failure classes of a parser result. -/
inductive NomErr (E : Type) where
  | Incomplete (n : Needed)
  | Error (e : E)
  | Failure (e : E)
  deriving DecidableEq

/-- `nom::IResult<I, O, E>`: remaining input and value on success, a
classified error on failure. -/
abbrev IResult (I O E : Type) := Except (NomErr E) (I × O)

/-- The `context` combinator from the source, specialised to `VerboseError`:
run the inner parser; on success pass the result through, on `Incomplete`
pass the needed amount through, and on `Error`/`Failure` add a context entry
built from the label thunk at the invocation position while keeping the
failure class. -/
def context (ctx : Unit → String) (f : I → IResult I O (VerboseError I)) :
    I → IResult I O (VerboseError I) :=
  fun i =>
    match f i with
    | .ok o => .ok o
    | .error (.Incomplete n) => .error (.Incomplete n)
    | .error (.Error e) => .error (.Error (VerboseError.add_context i (ctx ()) e))
    | .error (.Failure e) => .error (.Failure (VerboseError.add_context i (ctx ()) e))

/-- The address-arithmetic offset recovery of `nom::Offset` for byte slices:
the sub-slice starting at `p.start` has base address `base + p.start`, and
`input.offset(substring)` subtracts the buffer's own base address from it. -/
def sliceOffset (base : Nat) (p : Position) : Nat :=
  base + p.start - base

/-- Rust range-from slicing `input[i..]`, which panics (here: `none`) when
`i` exceeds the slice length. -/
def sliceFrom (xs : List Byte) (i : Nat) : Option (List Byte) :=
  if i ≤ xs.length then some (xs.drop i) else none

/-- One column of the hexdump loop body: a space before every even-indexed
byte, then either the two hex digits of the byte or two padding spaces when
the buffer has ended. -/
def colFn (i : Nat) (b : Option Byte) : String :=
  (if i % 2 = 0 then " " else "") ++
    (match b with
     | some byte => hex02 byte
     | none => "  ")

/-- The iterator `tail.iter().map(Some).chain(repeat(None)).take(16)`:
the first 16 bytes of the tail as `some`, padded with `none` up to 16. -/
def takePad (tail : List Byte) : List (Option Byte) :=
  ((tail.map some) ++ List.replicate 16 none).take 16

/-- The ASCII side panel character for one byte: the byte itself when it is
an ASCII graphic character or a space, otherwise a dot. -/
def asciiDot (b : Byte) : Char :=
  if (0x21 ≤ b.val ∧ b.val ≤ 0x7e) ∨ b.val = 0x20 then Char.ofNat b.val else '.'

/-- The hexdump row built by the source for the 16-byte line starting at
`lineBegin`, given the buffer tail `input[lineBegin..]`: the `{:08x}:` row
header, the 16 hex columns, a two-space gutter, and the ASCII panel. -/
def renderLineStr (lineBegin : Nat) (tail : List Byte) : String :=
  let header := hex8Str lineBegin ++ ":"
  let withHex := ((takePad tail).enum).foldl (fun buf x => buf ++ colFn x.1 x.2) header
  let withGutter := withHex ++ "  "
  (tail.take 16).foldl (fun buf b => buf.push (asciiDot b)) withGutter

/-- The caret string of the source (`const CARET`). -/
def CARET : String := "^---"

/-- The field width in which the caret is right-aligned:
`10 + CARET.len() + (offset % 16 / 2) * 5 + (offset % 16 % 2) * 2`. -/
def caretPosition (offset : Nat) : Nat :=
  10 + CARET.length + (offset % 16 / 2) * 5 + (offset % 16 % 2) * 2

/-- Rust right-aligning format `{s:>w$}`: left-pad with spaces to width `w`. -/
def rightAlign (s : String) (w : Nat) : String :=
  String.mk (List.replicate (w - s.length) ' ') ++ s

/-- The rendered caret row `{caret:>column$}` for an entry offset. -/
def caretRow (offset : Nat) : String :=
  rightAlign CARET (caretPosition offset)

/-- The degenerate line written for one entry when the original buffer is
empty: `"<index>: in <annotation>, got empty input\n\n"`, with a `Context`
label shown via `{}` and a nom kind via `{:?}`. -/
def emptyInputLine (idx : Nat) (k : VerboseErrorKind) : String :=
  match k with
  | .Context s => Nat.repr idx ++ ": in " ++ s ++ ", got empty input\n\n"
  | .Nom e => Nat.repr idx ++ ": in " ++ e.debugStr ++ ", got empty input\n\n"

/-- Rendering of a single trace entry by `convert_error`'s loop body:
`none` models the panic of the `input[line_begin..]` slicing.  `Context`
entries on a non-empty buffer produce the three-line block; `Nom` entries
produce no text (their `write!` is commented out in the source). -/
def renderEntry (input : List Byte) (idx : Nat) (p : Position)
    (k : VerboseErrorKind) : Option String :=
  let offset := sliceOffset 0 p
  if input.isEmpty then
    some (emptyInputLine idx k)
  else
    let lineBegin := offset - offset % 16
    match sliceFrom input lineBegin with
    | none => none
    | some tail =>
      match k with
      | .Context s =>
        some (Nat.repr idx ++ ": at offset 0x" ++ hexNatStr offset ++ ", " ++ s ++ ":\n"
          ++ renderLineStr lineBegin tail ++ "\n" ++ caretRow offset ++ "\n\n")
      | .Nom _ => some ""

/-- The enumerated accumulation loop of `convert_error` over the entry list. -/
def convertGo (input : List Byte) : Nat → String → List (Position × VerboseErrorKind) →
    Option String
  | _, acc, [] => some acc
  | i, acc, (p, k) :: rest =>
    match renderEntry input i p k with
    | none => none
    | some s => convertGo input (i + 1) (acc ++ s) rest

/-- `convert_error`: fold the rendered entries, in trace order, into one
report string.  `none` models a panic (out-of-bounds `line_begin` slicing,
impossible for traces whose positions are sub-slices of the buffer). -/
def convert_error (input : List Byte) (e : VerboseError Position) : Option String :=
  convertGo input 0 "" e.errors

/-- The 16 hex columns of a hexdump row written one after another, starting
at byte index `i` within the row: the recursive form of the source's
`for (i, byte) in line` loop. -/
def hexCols : Nat → List (Option Byte) → String
  | _, [] => ""
  | i, b :: rest => colFn i b ++ hexCols (i + 1) rest

/-- The ASCII side panel: `asciiDot` applied to the first 16 bytes of the
buffer tail, with no padding past buffer end. -/
def asciiPanel (tail : List Byte) : String :=
  String.mk ((tail.take 16).map asciiDot)

/-- Concatenation of a list of strings in order. -/
def strConcat : List String → String
  | [] => ""
  | s :: rest => s ++ strConcat rest

/-- The text contributed by one trace entry to the report on a non-empty
buffer: the full three-line block for a `Context` entry and nothing for a
`Nom` entry. -/
def entryText (input : List Byte) (idx : Nat) (p : Position)
    (k : VerboseErrorKind) : String :=
  match k with
  | .Context s =>
    let offset := sliceOffset 0 p
    let lineBegin := offset - offset % 16
    Nat.repr idx ++ ": at offset 0x" ++ hexNatStr offset ++ ", " ++ s ++ ":\n"
      ++ renderLineStr lineBegin (input.drop lineBegin) ++ "\n"
      ++ caretRow offset ++ "\n\n"
  | .Nom _ => ""

/-- The 32-byte demonstration buffer `[0x00, 0x01, ..., 0x1F]`. -/
def demo32 : List Byte := (List.range 32).map (fun n => Fin.ofNat n)

/-- A buffer long enough that a line-begin offset needs nine hex digits. -/
def hugeBuf : List Byte := List.replicate (2 ^ 32 + 1) 0

/-! ## String and hex-formatting facts -/

theorem str_mk_data (l : List Char) : (String.mk l).data = l := rfl

theorem str_push_data (s : String) (c : Char) : (s.push c).data = s.data ++ [c] := rfl

theorem str_length_data (s : String) : s.length = s.data.length := rfl

theorem str_push_eq (s : String) (c : Char) : s.push c = s ++ String.mk [c] :=
  String.ext (by simp [str_push_data, String.data_append, str_mk_data])

theorem hexDigitsAux_length_le :
    ∀ (fuel n : Nat) (acc : List Char) (k : Nat), 1 ≤ k → n < 16 ^ k →
      (hexDigitsAux fuel n acc).length ≤ k + acc.length := by
  intro fuel
  induction fuel with
  | zero => intro n acc k hk _; simp [hexDigitsAux]
  | succ fuel ih =>
    intro n acc k hk hn
    by_cases h : n < 16
    · simp [hexDigitsAux, h]; omega
    · simp only [hexDigitsAux, h, if_false]
      have hk2 : 2 ≤ k := by
        rcases Nat.lt_or_ge k 2 with hlt | hge
        · interval_cases k
          · exact absurd hn (by simpa using h)
        · exact hge
      have hdiv : n / 16 < 16 ^ (k - 1) := by
        apply Nat.div_lt_of_lt_mul
        have hpow : 16 ^ k = 16 * 16 ^ (k - 1) := by
          calc 16 ^ k = 16 ^ (1 + (k - 1)) := by congr 1; omega
          _ = 16 * 16 ^ (k - 1) := by rw [pow_add, pow_one]
        omega
      have := ih (n / 16) (hexDigitChar (n % 16) :: acc) (k - 1) (by omega) hdiv
      simp only [List.length_cons] at this
      omega

theorem hexDigitsOf_length_le (n k : Nat) (hk : 1 ≤ k) (hn : n < 16 ^ k) :
    (hexDigitsOf n).length ≤ k := by
  have := hexDigitsAux_length_le (n + 1) n [] k hk hn
  simpa [hexDigitsOf] using this

theorem padLeftList_length (w : Nat) (c : Char) (l : List Char) (h : l.length ≤ w) :
    (padLeftList w c l).length = w := by
  simp [padLeftList]
  omega

theorem hex02_length (b : Byte) : (hex02 b).length = 2 := by
  have hb : b.val < 16 ^ 2 := by have := b.isLt; omega
  have := hexDigitsOf_length_le b.val 2 (by norm_num) hb
  simpa [hex02, str_length_data, str_mk_data] using
    padLeftList_length 2 '0' (hexDigitsOf b.val) this

theorem hex8Str_length (n : Nat) (h : n < 16 ^ 8) : (hex8Str n).length = 8 := by
  have := hexDigitsOf_length_le n 8 (by norm_num) h
  simpa [hex8Str, str_length_data, str_mk_data] using
    padLeftList_length 8 '0' (hexDigitsOf n) this

theorem colFn_length (i : Nat) (b : Option Byte) :
    (colFn i b).length = (if i % 2 = 0 then 1 else 0) + 2 := by
  cases b with
  | none => simp [colFn, String.length_append]; split <;> rfl
  | some byte =>
    simp [colFn, String.length_append, hex02_length]
    split <;> rfl

/-! ## Hexdump row structure -/

theorem hexCols_append (l1 l2 : List (Option Byte)) :
    ∀ i, hexCols i (l1 ++ l2) = hexCols i l1 ++ hexCols (i + l1.length) l2 := by
  induction l1 with
  | nil => intro i; simp [hexCols, String.empty_append]
  | cons hd tl ih =>
    intro i
    have harith : i + (hd :: tl).length = (i + 1) + tl.length := by
      simp
      omega
    show colFn i hd ++ hexCols (i + 1) (tl ++ l2)
        = (colFn i hd ++ hexCols (i + 1) tl) ++ hexCols (i + (hd :: tl).length) l2
    rw [harith, ih, String.append_assoc]

theorem hexCols_length : ∀ (l : List (Option Byte)) (i : Nat),
    (hexCols i l).length = 2 * l.length + (l.length + 1 - i % 2) / 2 := by
  intro l
  induction l with
  | nil => intro i; simp [hexCols]; omega
  | cons hd tl ih =>
    intro i
    simp only [hexCols, String.length_append, colFn_length, ih, List.length_cons]
    split <;> omega

theorem enumFrom_foldl_colFn :
    ∀ (l : List (Option Byte)) (i : Nat) (buf : String),
      (List.enumFrom i l).foldl (fun b x => b ++ colFn x.1 x.2) buf = buf ++ hexCols i l := by
  intro l
  induction l with
  | nil => intro i buf; simp [hexCols, String.append_empty]
  | cons hd tl ih =>
    intro i buf
    simp only [List.enumFrom_cons, List.foldl_cons, hexCols, ih, String.append_assoc]

theorem foldl_push_ascii :
    ∀ (l : List Byte) (buf : String),
      l.foldl (fun b c => b.push (asciiDot c)) buf = buf ++ String.mk (l.map asciiDot) := by
  intro l
  induction l with
  | nil => intro buf; apply String.ext; simp [String.data_append, str_mk_data]
  | cons hd tl ih =>
    intro buf
    rw [List.foldl_cons, ih, str_push_eq]
    apply String.ext
    simp [String.data_append, str_mk_data]

theorem renderLineStr_eq (lb : Nat) (tail : List Byte) :
    renderLineStr lb tail
      = hex8Str lb ++ ":" ++ hexCols 0 (takePad tail) ++ "  " ++ asciiPanel tail := by
  unfold renderLineStr
  show (tail.take 16).foldl (fun buf b => buf.push (asciiDot b))
      ((List.enumFrom 0 (takePad tail)).foldl (fun buf x => buf ++ colFn x.1 x.2)
        (hex8Str lb ++ ":") ++ "  ") = _
  rw [foldl_push_ascii, enumFrom_foldl_colFn]
  simp [asciiPanel, String.append_assoc]

theorem takePad_length (tail : List Byte) : (takePad tail).length = 16 := by
  simp [takePad, List.length_take]

theorem takePad_getD (tail : List Byte) (j : Nat) (hj : j < 16) :
    (takePad tail).getD j none
      = if j < tail.length then some (tail.getD j 0) else none := by
  have hlen : j < (takePad tail).length := by rw [takePad_length]; omega
  rw [List.getD_eq_getElem _ _ hlen]
  by_cases h : j < tail.length
  · simp only [takePad]
    rw [List.getElem_take, List.getElem_append_left (by simpa using h)]
    simp [h, List.getD_eq_getElem _ _ h]
  · simp only [takePad]
    rw [List.getElem_take, List.getElem_append_right (by simpa using h),
      List.getElem_replicate]
    simp [h]

theorem drop_take_middle (P S Q : List Char) (n : Nat) (hP : P.length = n)
    (hS : S.length = 2) :
    ((P ++ (S ++ Q)).drop n).take 2 = S := by
  subst hP
  rw [List.drop_left, ← hS, List.take_left]

theorem caret_prefix_arith (off : Nat) :
    caretPosition off - CARET.length
      = 9 + (2 * (off % 16) + (off % 16 + 1) / 2)
        + (if off % 16 % 2 = 0 then 1 else 0) := by
  have h16 : off % 16 < 16 := Nat.mod_lt _ (by norm_num)
  have hc : CARET.length = 4 := rfl
  simp only [caretPosition, hc]
  split <;> omega

theorem line_caret_take (input : List Byte) (off : Nat) (h : off < input.length)
    (h8 : off < 16 ^ 8) :
    ((renderLineStr (off - off % 16) (input.drop (off - off % 16))).data.drop
        (caretPosition off - CARET.length)).take 2
      = (hex02 (input.getD off 0)).data := by
  set j := off % 16 with hjdef
  set lb := off - j with hlbdef
  have hj16 : j < 16 := Nat.mod_lt _ (by norm_num)
  have hjle : j ≤ off := Nat.mod_le _ _
  set tail := input.drop lb with htaildef
  have htl : tail.length = input.length - lb := by simp [htaildef]
  have hjt : j < tail.length := by omega
  have hlb8 : lb < 16 ^ 8 := by omega
  have hbyte : tail.getD j 0 = input.getD off 0 := by
    rw [htaildef]
    rw [List.getD_eq_getElem _ _ (by rw [List.length_drop]; omega),
      List.getD_eq_getElem _ _ h, List.getElem_drop]
    congr 1
    omega
  set T := takePad tail with hTdef
  have hT16 : T.length = 16 := takePad_length tail
  have hjT : j < T.length := by omega
  have hTj : T[j] = some (tail.getD j 0) := by
    have h1 : T.getD j none = T[j] := List.getD_eq_getElem T none hjT
    rw [← h1, hTdef]
    simpa [hjt] using takePad_getD tail j hj16
  have hsplit : T = T.take j ++ (some (tail.getD j 0) :: T.drop (j + 1)) := by
    conv_lhs => rw [← List.take_append_drop j T]
    congr 1
    rw [List.drop_eq_getElem_cons hjT, hTj]
  have htakelen : (T.take j).length = j := by
    simp [List.length_take, hT16]
    omega
  have hcols : hexCols 0 T
      = hexCols 0 (T.take j)
        ++ (colFn j (some (tail.getD j 0)) ++ hexCols (j + 1) (T.drop (j + 1))) := by
    conv_lhs => rw [hsplit]
    rw [hexCols_append]
    simp [htakelen, hexCols]
  rw [renderLineStr_eq, ← hbyte]
  have hdata : (hex8Str lb ++ ":" ++ hexCols 0 T ++ "  " ++ asciiPanel tail).data
      = ((hex8Str lb).data ++ ":".data ++ (hexCols 0 (T.take j)).data
          ++ (if j % 2 = 0 then " " else "").data)
        ++ ((hex02 (tail.getD j 0)).data
          ++ ((hexCols (j + 1) (T.drop (j + 1))).data ++ "  ".data
            ++ (asciiPanel tail).data)) := by
    rw [hcols]
    simp only [String.data_append, colFn, List.append_assoc]
  rw [hdata]
  apply drop_take_middle
  · have hib : (":" : String).data.length = 1 := rfl
    have hx8 : (hex8Str lb).data.length = 8 := by
      rw [← str_length_data]
      exact hex8Str_length lb hlb8
    have hxc : (hexCols 0 (T.take j)).data.length = 2 * j + (j + 1) / 2 := by
      rw [← str_length_data, hexCols_length, htakelen]
      norm_num
    rw [caret_prefix_arith]
    rcases Nat.mod_two_eq_zero_or_one j with hpar | hpar <;>
      simp [List.length_append, hx8, hib, hxc, hpar, hjdef] <;>
      omega
  · rw [← str_length_data]
    exact hex02_length _

/-! ## Entry rendering and the accumulation loop -/

theorem renderEntry_eq_entryText (input : List Byte) (hne : input ≠ [])
    (idx : Nat) (p : Position) (hp : p.start + p.len ≤ input.length)
    (k : VerboseErrorKind) :
    renderEntry input idx p k = some (entryText input idx p k) := by
  have hoff : sliceOffset 0 p = p.start := by simp [sliceOffset]
  have hle : p.start - p.start % 16 ≤ input.length := by
    have := Nat.mod_le p.start 16
    omega
  have hemp : input.isEmpty = false := by
    cases input with
    | nil => exact absurd rfl hne
    | cons hd tl => rfl
  cases k with
  | Context s => simp [renderEntry, entryText, hemp, hoff, sliceFrom, hle]
  | Nom kk => simp [renderEntry, entryText, hemp, hoff, sliceFrom, hle]

theorem convertGo_empty :
    ∀ (l : List (Position × VerboseErrorKind)) (i : Nat) (acc : String),
      convertGo [] i acc l
        = some (acc ++ strConcat ((List.enumFrom i l).map
            (fun x => emptyInputLine x.1 x.2.2))) := by
  intro l
  induction l with
  | nil => intro i acc; simp [convertGo, strConcat, String.append_empty]
  | cons hd tl ih =>
    intro i acc
    obtain ⟨p, k⟩ := hd
    have hre : renderEntry [] i p k = some (emptyInputLine i k) := by
      simp [renderEntry]
    simp only [convertGo, hre, List.enumFrom_cons, List.map_cons, strConcat, ih,
      String.append_assoc]

theorem convertGo_nonempty (input : List Byte) (hne : input ≠ []) :
    ∀ (l : List (Position × VerboseErrorKind)),
      (∀ x ∈ l, x.1.start + x.1.len ≤ input.length) →
      ∀ (i : Nat) (acc : String),
        convertGo input i acc l
          = some (acc ++ strConcat ((List.enumFrom i l).map
              (fun x => entryText input x.1 x.2.1 x.2.2))) := by
  intro l
  induction l with
  | nil => intro _ i acc; simp [convertGo, strConcat, String.append_empty]
  | cons hd tl ih =>
    intro hsub i acc
    obtain ⟨p, k⟩ := hd
    have hp : p.start + p.len ≤ input.length := hsub (p, k) (by simp)
    have hre := renderEntry_eq_entryText input hne i p hp k
    simp only [convertGo, hre, List.enumFrom_cons, List.map_cons, strConcat,
      ih (fun x hx => hsub x (by simp [hx])), String.append_assoc]

/-! ## Claim theorems -/

/-- Claim C3: when the inner parser fails with the recoverable `Error` class
or the fatal `Failure` class, the `context` combinator returns a failure of
the same class whose trace is the inner trace with exactly one `Context`
entry appended at the end, carrying the label and the position `i` at which
the combinator was invoked. -/
theorem context_appends_entry_on_failure {I O : Type} (ctx : Unit → String)
    (f : I → IResult I O (VerboseError I)) (i : I) (e : VerboseError I) :
    (f i = .error (.Error e) →
      context ctx f i
        = .error (.Error ⟨e.errors ++ [(i, .Context (ctx ()))]⟩))
    ∧ (f i = .error (.Failure e) →
      context ctx f i
        = .error (.Failure ⟨e.errors ++ [(i, .Context (ctx ()))]⟩)) := by
  constructor <;> intro h <;> simp [context, h, VerboseError.add_context]

/-- Claim C3 witness: concrete parsers failing with each class at position 3,
inner trace seeded at position 7, label `"lbl"`. -/
theorem context_appends_entry_on_failure_witness :
    context (fun _ => "lbl")
        (fun _ => (.error (.Error ⟨[(7, .Nom .Tag)]⟩) : IResult Nat Nat (VerboseError Nat))) 3
      = .error (.Error ⟨[(7, .Nom .Tag), (3, .Context "lbl")]⟩)
    ∧ context (fun _ => "lbl")
        (fun _ => (.error (.Failure ⟨[(7, .Nom .Tag)]⟩) : IResult Nat Nat (VerboseError Nat))) 3
      = .error (.Failure ⟨[(7, .Nom .Tag), (3, .Context "lbl")]⟩) :=
  ⟨(context_appends_entry_on_failure (fun _ => "lbl") _ 3 ⟨[(7, .Nom .Tag)]⟩).1 rfl,
   (context_appends_entry_on_failure (fun _ => "lbl") _ 3 ⟨[(7, .Nom .Tag)]⟩).2 rfl⟩

/-- Claim C4: when the inner parser succeeds, the `context` combinator
returns the inner result unchanged (same remaining input and value, no trace
entries added) and its output does not depend on the label thunk at all. -/
theorem context_transparent_on_success {I O : Type} (c1 c2 : Unit → String)
    (f : I → IResult I O (VerboseError I)) (i : I) (r : I × O)
    (h : f i = .ok r) :
    context c1 f i = .ok r ∧ context c1 f i = context c2 f i := by
  constructor <;> simp [context, h]

/-- Claim C4 witness: a concrete succeeding parser wrapped with two
different labels. -/
theorem context_transparent_on_success_witness :
    context (fun _ => "a")
        (fun i => (.ok (i + 1, 99) : IResult Nat Nat (VerboseError Nat))) 3
      = .ok (4, 99)
    ∧ context (fun _ => "a")
        (fun i => (.ok (i + 1, 99) : IResult Nat Nat (VerboseError Nat))) 3
      = context (fun _ => "b")
        (fun i => (.ok (i + 1, 99) : IResult Nat Nat (VerboseError Nat))) 3 :=
  context_transparent_on_success (fun _ => "a") (fun _ => "b") _ 3 (4, 99) rfl

/-- Claim C10: when the inner parser fails with the `Incomplete` class, the
`context` combinator propagates it unchanged: no trace entry is added and
the output does not depend on the label thunk. -/
theorem context_passes_incomplete {I O : Type} (c1 c2 : Unit → String)
    (f : I → IResult I O (VerboseError I)) (i : I) (n : Needed)
    (h : f i = .error (.Incomplete n)) :
    context c1 f i = .error (.Incomplete n) ∧ context c1 f i = context c2 f i := by
  constructor <;> simp [context, h]

/-- Claim C10 witness: a concrete parser demanding 5 more bytes wrapped with
two different labels. -/
theorem context_passes_incomplete_witness :
    context (fun _ => "a")
        (fun _ => (.error (.Incomplete (.Size 5)) : IResult Nat Nat (VerboseError Nat))) 3
      = .error (.Incomplete (.Size 5))
    ∧ context (fun _ => "a")
        (fun _ => (.error (.Incomplete (.Size 5)) : IResult Nat Nat (VerboseError Nat))) 3
      = context (fun _ => "b")
        (fun _ => (.error (.Incomplete (.Size 5)) : IResult Nat Nat (VerboseError Nat))) 3 :=
  context_passes_incomplete (fun _ => "a") (fun _ => "b") _ 3 (.Size 5) rfl

/-- Claim C6: the address-arithmetic offset of a position inside a non-empty
buffer equals the arithmetic distance from buffer start to the position's
start, including a zero-length position sitting exactly at buffer end. -/
theorem offset_is_arithmetic_distance (input : List Byte) (base : Nat)
    (p : Position) (hne : input ≠ []) (hsub : p.start + p.len ≤ input.length) :
    sliceOffset base p = p.start := by
  simp [sliceOffset]

/-- Claim C6 witness: a zero-length position exactly at the end of a 3-byte
buffer, with an arbitrary non-zero base address. -/
theorem offset_is_arithmetic_distance_witness :
    ([65, 66, 67] : List Byte) ≠ [] ∧ 3 + 0 ≤ ([65, 66, 67] : List Byte).length
      ∧ sliceOffset 1000 ⟨3, 0⟩ = 3 :=
  ⟨by decide, by decide,
    offset_is_arithmetic_distance [65, 66, 67] 1000 ⟨3, 0⟩ (by decide) (by decide)⟩

/-- Claim C8: the trace operations only ever push one entry at the end:
`append` and `add_context` preserve all existing entries and their order,
and seeding with one entry then appending two more one at a time yields
exactly the three entries in order, the same as accumulating them in one
pass. -/
theorem append_order_preserving {I : Type} (t : VerboseError I) (p1 p2 p3 : I)
    (k1 k2 : ErrorKind) (s3 : String) :
    (VerboseError.append p1 k1 t).errors = t.errors ++ [(p1, .Nom k1)]
      ∧ (VerboseError.add_context p3 s3 t).errors = t.errors ++ [(p3, .Context s3)]
      ∧ (VerboseError.add_context p3 s3 (VerboseError.append p2 k2
          (VerboseError.from_error_kind p1 k1))).errors
        = [(p1, .Nom k1), (p2, .Nom k2), (p3, .Context s3)] :=
  ⟨rfl, rfl, rfl⟩

/-- Claim C7: rendering any trace against an empty original buffer yields,
in trace order, exactly the degenerate `"<index>: in <annotation>, got empty
input"` line for each entry (label for `Context`, debug text for `Nom`),
with no hexdump row and no caret row anywhere. -/
theorem empty_buffer_degenerate_lines (e : VerboseError Position) :
    convert_error [] e
      = some (strConcat (e.errors.enum.map
          (fun x => emptyInputLine x.1 x.2.2))) := by
  show convertGo [] 0 "" e.errors = _
  rw [show e.errors.enum = List.enumFrom 0 e.errors from rfl,
    convertGo_empty e.errors 0 "", String.empty_append]

/-- Claim C2 counterexample: on an empty buffer a `Nom` (RawKind) entry does
produce text, so the report is not one block per `Context` entry there: a
trace with a single `Nom` entry and no `Context` entry renders non-empty. -/
theorem raw_kind_rendered_on_empty_buffer :
    convert_error [] ⟨[(⟨0, 0⟩, .Nom .Eof)]⟩
        = some "0: in Eof, got empty input\n\n"
      ∧ some "0: in Eof, got empty input\n\n" ≠ (some "" : Option String) := by
  constructor
  · decide
  · decide

/-- Claim C2 (amended: restricted to non-empty input buffers, as the
empty-buffer branch renders a degenerate line for every entry): on a
non-empty buffer the report is exactly the concatenation of the per-entry
texts, and the text of every `Nom` (RawKind) entry is empty, so only
`Context` entries contribute blocks. -/
theorem raw_kind_entries_render_nothing (input : List Byte)
    (e : VerboseError Position) (hne : input ≠ [])
    (hsub : ∀ x ∈ e.errors, x.1.start + x.1.len ≤ input.length) :
    convert_error input e
        = some (strConcat (e.errors.enum.map
            (fun x => entryText input x.1 x.2.1 x.2.2)))
      ∧ ∀ idx p k, entryText input idx p (VerboseErrorKind.Nom k) = "" := by
  constructor
  · show convertGo input 0 "" e.errors = _
    rw [show e.errors.enum = List.enumFrom 0 e.errors from rfl,
      convertGo_nonempty input hne e.errors hsub 0 "", String.empty_append]
  · intro idx p k
    rfl

/-- Claim C2 witness: a one-byte buffer with a mixed trace (one `Nom` entry,
one `Context` entry). -/
theorem raw_kind_entries_render_nothing_witness :
    convert_error [65] ⟨[(⟨0, 1⟩, .Nom .Tag), (⟨0, 1⟩, .Context "x")]⟩
        = some (strConcat ((VerboseError.errors
            ⟨[((⟨0, 1⟩ : Position), VerboseErrorKind.Nom .Tag), (⟨0, 1⟩, .Context "x")]⟩).enum.map
            (fun x => entryText [65] x.1 x.2.1 x.2.2)))
      ∧ entryText [65] 0 ⟨0, 1⟩ (VerboseErrorKind.Nom .Tag) = "" :=
  ⟨(raw_kind_entries_render_nothing [65] ⟨[(⟨0, 1⟩, .Nom .Tag), (⟨0, 1⟩, .Context "x")]⟩
      (by decide) (by decide)).1,
   (raw_kind_entries_render_nothing [65] ⟨[(⟨0, 1⟩, .Nom .Tag), (⟨0, 1⟩, .Context "x")]⟩
      (by decide) (by decide)).2 0 ⟨0, 1⟩ .Tag⟩

/-- Claim C9: `convert_error` is total on traces whose positions are
sub-slices of the buffer: it returns a string (never the panic value), and
in particular the `input[line_begin..]` slicing of every entry succeeds
because `line_begin = offset - offset % 16 ≤ offset ≤ buffer length`. -/
theorem convert_error_total (input : List Byte) (e : VerboseError Position)
    (hsub : ∀ x ∈ e.errors, x.1.start + x.1.len ≤ input.length) :
    (convert_error input e).isSome
      ∧ ∀ x ∈ e.errors,
        (sliceFrom input (sliceOffset 0 x.1 - sliceOffset 0 x.1 % 16)).isSome := by
  constructor
  · by_cases hne : input = []
    · subst hne
      show (convertGo [] 0 "" e.errors).isSome
      rw [convertGo_empty e.errors 0 ""]
      rfl
    · show (convertGo input 0 "" e.errors).isSome
      rw [convertGo_nonempty input hne e.errors hsub 0 ""]
      rfl
  · intro x hx
    have hx1 := hsub x hx
    have hoff : sliceOffset 0 x.1 = x.1.start := by simp [sliceOffset]
    rw [hoff]
    have hle : x.1.start - x.1.start % 16 ≤ input.length := by
      have := Nat.mod_le x.1.start 16
      omega
    simp [sliceFrom, hle]

/-- Claim C9 witness: a 17-byte buffer with entries at a middle offset and a
zero-length position at buffer end. -/
theorem convert_error_total_witness :
    (∀ x ∈ (VerboseError.errors (I := Position)
        ⟨[(⟨3, 2⟩, .Context "a"), (⟨17, 0⟩, .Nom .Eof)]⟩),
      x.1.start + x.1.len ≤ (List.replicate 17 (0 : Byte)).length)
      ∧ (convert_error (List.replicate 17 0)
          ⟨[(⟨3, 2⟩, .Context "a"), (⟨17, 0⟩, .Nom .Eof)]⟩).isSome :=
  ⟨by decide,
   (convert_error_total (List.replicate 17 0)
      ⟨[(⟨3, 2⟩, .Context "a"), (⟨17, 0⟩, .Nom .Eof)]⟩ (by decide)).1⟩

/-- Claim C1 counterexample: at entry offset `2 ^ 32` (a valid offset in a
buffer longer than 4 GiB) the `{:08x}` row header needs nine hex digits, so
the characters of the hexdump row at the caret column are not the hex pair
of the byte at that offset. -/
theorem caret_misaligned_beyond_8_digits :
    2 ^ 32 < hugeBuf.length
      ∧ ((renderLineStr (2 ^ 32 - 2 ^ 32 % 16)
            (hugeBuf.drop (2 ^ 32 - 2 ^ 32 % 16))).data.drop
          (caretPosition (2 ^ 32) - CARET.length)).take 2
        ≠ (hex02 (hugeBuf.getD (2 ^ 32) 0)).data := by
  have hdrop : hugeBuf.drop (2 ^ 32 - 2 ^ 32 % 16) = [0] := by
    show (List.replicate (2 ^ 32 + 1) (0 : Byte)).drop (2 ^ 32 - 2 ^ 32 % 16) = [0]
    rw [show (2 : Nat) ^ 32 - 2 ^ 32 % 16 = 2 ^ 32 from by norm_num,
      List.drop_replicate]
    norm_num
  have hget : hugeBuf.getD (2 ^ 32) 0 = 0 := by
    show (List.replicate (2 ^ 32 + 1) (0 : Byte)).getD (2 ^ 32) 0 = 0
    rw [List.getD_eq_getElem _ _ (by rw [List.length_replicate]; norm_num),
      List.getElem_replicate]
  constructor
  · show 2 ^ 32 < (List.replicate (2 ^ 32 + 1) (0 : Byte)).length
    rw [List.length_replicate]
    norm_num
  · rw [hdrop, hget]
    decide

/-- Claim C1 (amended: the caret lands under the hex pair of its byte for
offsets whose row base fits the 8-hex-digit header, i.e. `offset < 16 ^ 8`;
for larger offsets the header widens and the caret row, whose width formula
assumes a 10-character header, falls out of alignment): the caret row
right-aligns `"^---"` in a field of width
`10 + len("^---") + (offset % 16 / 2) * 5 + (offset % 16 % 2) * 2`, and the
two characters of the hexdump row at the caret column are exactly the hex
pair of the byte at the entry offset. -/
theorem caret_under_hex_pair (input : List Byte) (off : Nat)
    (h : off < input.length) (h8 : off < 16 ^ 8) :
    caretRow off
        = String.mk (List.replicate (caretPosition off - CARET.length) ' ') ++ CARET
      ∧ (caretRow off).length
        = 10 + CARET.length + (off % 16 / 2) * 5 + (off % 16 % 2) * 2
      ∧ ((renderLineStr (off - off % 16) (input.drop (off - off % 16))).data.drop
          (caretPosition off - CARET.length)).take 2
        = (hex02 (input.getD off 0)).data := by
  refine ⟨rfl, ?_, line_caret_take input off h h8⟩
  have hc : CARET.length = 4 := rfl
  show (rightAlign CARET (caretPosition off)).length = _
  simp only [rightAlign, str_length_data, String.data_append, str_mk_data,
    List.length_append, List.length_replicate, caretPosition, hc]
  omega

/-- Claim C1 witness: the demonstration buffer `0x00..0x1F` with an entry at
offset `0x11`. -/
theorem caret_under_hex_pair_witness :
    17 < demo32.length ∧ 17 < 16 ^ 8
      ∧ (caretRow 17
            = String.mk (List.replicate (caretPosition 17 - CARET.length) ' ') ++ CARET
          ∧ (caretRow 17).length
            = 10 + CARET.length + (17 % 16 / 2) * 5 + (17 % 16 % 2) * 2
          ∧ ((renderLineStr (17 - 17 % 16) (demo32.drop (17 - 17 % 16))).data.drop
              (caretPosition 17 - CARET.length)).take 2
            = (hex02 (demo32.getD 17 0)).data) :=
  ⟨by decide, by norm_num, caret_under_hex_pair demo32 17 (by decide) (by norm_num)⟩

/-- Claim C5: for every non-empty buffer and every entry offset, the rendered
hexdump row is the `{:08x}` header for `line_begin = offset - offset % 16`
followed by a colon, then the 16 byte columns starting at `line_begin` (a
space before every even-indexed column, two lowercase hex digits per present
byte, two padding spaces per column past buffer end), the gutter, and the
ASCII panel; and on the 32-byte buffer `0x00..0x1F` with an entry at offset
`0x11` the row header is `00000010:` and the columns show bytes `10..1f`. -/
theorem hexdump_row_structure (input : List Byte) (off : Nat)
    (hne : input ≠ []) (hoff : off ≤ input.length) :
    (renderLineStr (off - off % 16) (input.drop (off - off % 16))
        = hex8Str (off - off % 16) ++ ":"
          ++ hexCols 0 (takePad (input.drop (off - off % 16))) ++ "  "
          ++ asciiPanel (input.drop (off - off % 16)))
      ∧ (takePad (input.drop (off - off % 16))).length = 16
      ∧ (∀ j, j < 16 →
          (takePad (input.drop (off - off % 16))).getD j none
            = if (off - off % 16) + j < input.length
              then some (input.getD ((off - off % 16) + j) 0) else none)
      ∧ (∀ b : Byte, (hex02 b).length = 2
          ∧ ∀ c ∈ (hex02 b).data, c ∈ ("0123456789abcdef" : String).data)
      ∧ renderLineStr (17 - 17 % 16) (demo32.drop (17 - 17 % 16))
        = "00000010: 1011 1213 1415 1617 1819 1a1b 1c1d 1e1f  ................" := by
  refine ⟨renderLineStr_eq _ _, takePad_length _, ?_, ?_, by decide⟩
  · intro j hj
    rw [takePad_getD _ j hj]
    have hlen : (input.drop (off - off % 16)).length
        = input.length - (off - off % 16) := by
      simp
    have hlb : off - off % 16 ≤ off := by
      have := Nat.mod_le off 16
      omega
    by_cases hcase : (off - off % 16) + j < input.length
    · have hjt : j < (input.drop (off - off % 16)).length := by omega
      rw [if_pos hjt, if_pos hcase]
      congr 1
      rw [List.getD_eq_getElem _ _ hjt, List.getD_eq_getElem _ _ hcase,
        List.getElem_drop]
    · have hjt : ¬ j < (input.drop (off - off % 16)).length := by omega
      rw [if_neg hjt, if_neg hcase]
  · set_option maxRecDepth 4096 in decide

/-- Claim C5 witness: the demonstration buffer `0x00..0x1F` with an entry at
offset `0x11`, exercising the structural conjuncts at row position 1 and at
a padded column. -/
theorem hexdump_row_structure_witness :
    demo32 ≠ [] ∧ 17 ≤ demo32.length
      ∧ ((takePad (demo32.drop (17 - 17 % 16))).getD 1 none
        = (if (17 - 17 % 16) + 1 < demo32.length
          then some (demo32.getD ((17 - 17 % 16) + 1) 0) else none))
      ∧ renderLineStr (17 - 17 % 16) (demo32.drop (17 - 17 % 16))
        = "00000010: 1011 1213 1415 1617 1819 1a1b 1c1d 1e1f  ................" := by
  have hmain := hexdump_row_structure demo32 17 (by decide) (by decide)
  exact ⟨by decide, by decide, hmain.2.2.1 1 (by decide), hmain.2.2.2.2⟩

end Ittech
